import Mathlib

/-!
Verification model of the `stealth_pq` on-ledger program
(`programs/stealth-pq/src/lib.rs`).

The program stores the ciphertext metadata of a hybrid post-quantum
stealth payment in a program-derived account (`CiphertextAccount`) and
exposes four instructions: `init_ciphertext`, `complete_ciphertext`,
`transfer_to_stealth` and `reclaim_rent`.

The embedding below translates the Rust handlers together with the
Anchor account constraints (`init`, `seeds`, `bump`, `close`, `mut`)
into pure functions over an explicit ledger state.  Host-runtime
behaviour that the source relies on is made explicit:

* program-derived addresses are modelled by the injective constructor
  `Addr.pda` applied to the seed bytes, the key and the bump, so that
  derivation is a pure deterministic function and distinct seeds or
  keys give distinct addresses (the collision-resistance assumption of
  the real derivation);
* a transaction that fails at any point commits nothing: each
  instruction returns `Except ProgramError Ledger`, producing either a
  fully updated ledger or an error and no state change;
* lamport balances are integers moved by `hostTransfer`, the model of
  the system program's native transfer invoked via CPI.
-/

namespace StealthPq

set_option maxRecDepth 40000

/-- Public keys are modelled as natural numbers. -/
abbrev Pubkey := Nat

/-- Bytes are modelled as natural numbers (the operations never depend
on the 256 bound). -/
abbrev Byte := Nat

/-- MLKEM768 ciphertext size in bytes (`MLKEM_CIPHERTEXT_SIZE` in the source). -/
def MLKEM_CIPHERTEXT_SIZE : Nat := 1088

/-- X25519 ephemeral public key size in bytes (`EPHEMERAL_PUBKEY_SIZE`). -/
def EPHEMERAL_PUBKEY_SIZE : Nat := 32

/-- Ledger addresses.  A `wallet` is an ordinary signing address; a
`pda` is a program-derived address computed from seed bytes, a public
key and a bump.  The constructor being injective models the
collision-resistance of the real hash-based derivation, and `wallet`
and `pda` being distinct models that PDAs are off-curve. -/
inductive Addr where
  | wallet (key : Pubkey)
  | pda (seed : List Byte) (key : Pubkey) (bump : Nat)
deriving DecidableEq

/-- The seed bytes `b"ciphertext"` used for every `CiphertextAccount`
derivation (`seeds = [b"ciphertext", ...]` in the source). -/
def ciphertextSeed : List Byte := [99, 105, 112, 104, 101, 114, 116, 101, 120, 116]

/-- Model of `find_program_address`'s canonical bump for the
`["ciphertext", stealth_pubkey]` seeds: a pure deterministic function
of the inputs.  The concrete value is irrelevant to every property
proved below; only determinism and the re-derivation checks matter. -/
def canonicalBump (_stealthAddress : Pubkey) : Nat := 255

/-- The persistent record (`CiphertextAccount` in the source):
stealth public key, ephemeral X25519 key, MLKEM768 ciphertext buffer,
creation timestamp and the PDA bump. -/
structure CiphertextAccount where
  stealth_pubkey : Pubkey
  ephemeral_pubkey : List Byte
  mlkem_ciphertext : List Byte
  created_at : Int
  bump : Nat
deriving DecidableEq

/-- Size of `CiphertextAccount` in bytes, without the discriminator
(`CiphertextAccount::SIZE` in the source): 32 + 32 + 1088 + 8 + 1. -/
def CiphertextAccount.SIZE : Nat :=
  32 + EPHEMERAL_PUBKEY_SIZE + MLKEM_CIPHERTEXT_SIZE + 8 + 1

/-- Model of `impl Default for CiphertextAccount`: the all-zero record.
Anchor's `init` zero-initialises a fresh account the same way. -/
def defaultCiphertextAccount : CiphertextAccount where
  stealth_pubkey := 0
  ephemeral_pubkey := List.replicate EPHEMERAL_PUBKEY_SIZE 0
  mlkem_ciphertext := List.replicate MLKEM_CIPHERTEXT_SIZE 0
  created_at := 0
  bump := 0

/-- Errors an instruction can surface.  The first two are the program's
own `StealthError` variants; the rest are the host/Anchor failures the
source relies on (duplicate `init`, missing account, failed
`seeds`/`bump` re-derivation). -/
inductive ProgramError where
  | invalidCiphertextLength
  | zeroTransferAmount
  | accountAlreadyInUse
  | accountNotFound
  | constraintSeeds
deriving DecidableEq

/-- Association-list lookup keyed by address. -/
def alookup {α : Type} : List (Addr × α) → Addr → Option α
  | [], _ => none
  | (b, x) :: rest, a => if b = a then some x else alookup rest a

/-- Remove every entry for an address. -/
def aerase {α : Type} : List (Addr × α) → Addr → List (Addr × α)
  | [], _ => []
  | (b, x) :: rest, a => if b = a then aerase rest a else (b, x) :: aerase rest a

/-- Insert or overwrite the entry for an address. -/
def aput {α : Type} (l : List (Addr × α)) (a : Addr) (x : α) : List (Addr × α) :=
  (a, x) :: aerase l a

/-- Ledger state visible to the program: the records stored at derived
addresses, and the lamport balances of all addresses. -/
structure Ledger where
  records : List (Addr × CiphertextAccount)
  balances : List (Addr × Int)
deriving DecidableEq

/-- Balance of an address, zero when absent. -/
def getBalance (st : Ledger) (a : Addr) : Int :=
  (alookup st.balances a).getD 0

/-- Model of the system program's native lamport transfer
(`system_program::transfer` invoked by CPI, and the rent payment /
close refund the Anchor constraints perform): debit the source, credit
the destination.  Funds-sufficiency checks are the host's own and are
outside this model, which the spec scopes out as an external service. -/
def hostTransfer (bal : List (Addr × Int)) (source dest : Addr) (n : Int) :
    List (Addr × Int) :=
  let debited := aput bal source ((alookup bal source).getD 0 - n)
  aput debited dest ((alookup debited dest).getD 0 + n)

/-- Rent-exempt deposit for the account (host rent model:
`(128 + space) * 6960` lamports with `space = 8 + SIZE`). -/
def rentCost : Int := ((128 + (8 + CiphertextAccount.SIZE) : Nat) : Int) * 6960

/-- Semantics of `buf[offset..offset + chunk.len()].copy_from_slice(chunk)`
on a byte buffer, for `offset + chunk.length ≤ buf.length`. -/
def writeSlice (buf : List Byte) (offset : Nat) (chunk : List Byte) : List Byte :=
  buf.take offset ++ chunk ++ buf.drop (offset + chunk.length)

/-- The `init_ciphertext` instruction.  Anchor's `init` constraint
first derives the PDA from `[b"ciphertext", stealth_address]` with the
canonical bump, fails if an account already exists there, and makes the
sender pay the rent deposit into the new account; the handler then
requires `ciphertext_part1.len() <= 512`, writes the stealth key, the
ephemeral key and the first chunk into the zero-initialised record,
stamps `Clock::get()` (the `now` argument) and stores the bump. -/
def init_ciphertext (st : Ledger) (sender : Pubkey) (stealthAddress : Pubkey)
    (ephemeralPubkey : List Byte) (ciphertextPart1 : List Byte) (now : Int) :
    Except ProgramError Ledger :=
  let bump := canonicalBump stealthAddress
  let addr := Addr.pda ciphertextSeed stealthAddress bump
  match alookup st.records addr with
  | some _ => .error .accountAlreadyInUse
  | none =>
      if ciphertextPart1.length ≤ 512 then
        let acct : CiphertextAccount :=
          { defaultCiphertextAccount with
            stealth_pubkey := stealthAddress
            ephemeral_pubkey := ephemeralPubkey
            mlkem_ciphertext :=
              writeSlice defaultCiphertextAccount.mlkem_ciphertext 0 ciphertextPart1
            created_at := now
            bump := bump }
        .ok { records := aput st.records addr acct
              balances := hostTransfer st.balances (Addr.wallet sender) addr rentCost }
      else .error .invalidCiphertextLength

/-- The `complete_ciphertext` instruction.  The account constraints
require the passed `ciphertext_account` to exist and to sit exactly at
`pda [b"ciphertext", account.stealth_pubkey] (bump = account.bump)`
(re-derivation from the stored key, not from caller input); the
handler requires `offset + chunk.len() <= MLKEM_CIPHERTEXT_SIZE` and
overwrites `mlkem_ciphertext[offset..offset + chunk.len()]`.  The
`sender` signer is not compared against any stored value — the source
places no constraint on it beyond paying the fee. -/
def complete_ciphertext (st : Ledger) (sender : Pubkey) (ciphertextAccount : Addr)
    (ciphertextPart2 : List Byte) (offset : Nat) : Except ProgramError Ledger :=
  match alookup st.records ciphertextAccount with
  | none => .error .accountNotFound
  | some acct =>
      if ciphertextAccount = Addr.pda ciphertextSeed acct.stealth_pubkey acct.bump then
        if offset + ciphertextPart2.length ≤ MLKEM_CIPHERTEXT_SIZE then
          .ok { st with
                records := aput st.records ciphertextAccount
                  { acct with
                    mlkem_ciphertext :=
                      writeSlice acct.mlkem_ciphertext offset ciphertextPart2 } }
        else .error .invalidCiphertextLength
      else .error .constraintSeeds

/-- The `transfer_to_stealth` instruction.  The account constraints
require a `ciphertext_account` to exist at
`pda [b"ciphertext", stealth_address] (bump = account.bump)`; the
handler requires `lamports > 0` and then delegates to the system
program's transfer from the sender to the stealth address.  No record
is touched. -/
def transfer_to_stealth (st : Ledger) (sender : Pubkey) (stealthAddress : Pubkey)
    (ciphertextAccount : Addr) (lamports : Nat) : Except ProgramError Ledger :=
  match alookup st.records ciphertextAccount with
  | none => .error .accountNotFound
  | some acct =>
      if ciphertextAccount = Addr.pda ciphertextSeed stealthAddress acct.bump then
        if 0 < lamports then
          .ok { st with
                balances := hostTransfer st.balances (Addr.wallet sender)
                  (Addr.wallet stealthAddress) (lamports : Int) }
        else .error .zeroTransferAmount
      else .error .constraintSeeds

/-- The `reclaim_rent` instruction.  The account constraints require
the passed `ciphertext_account` to exist at
`pda [b"ciphertext", stealth_signer] (bump = account.bump)` — i.e. the
signer's own key must re-derive the record's address — and the `close`
constraint then deletes the record and moves its whole lamport balance
to the signer.  The handler body itself does nothing. -/
def reclaim_rent (st : Ledger) (stealthSigner : Pubkey) (ciphertextAccount : Addr) :
    Except ProgramError Ledger :=
  match alookup st.records ciphertextAccount with
  | none => .error .accountNotFound
  | some acct =>
      if ciphertextAccount = Addr.pda ciphertextSeed stealthSigner acct.bump then
        .ok { records := aerase st.records ciphertextAccount
              balances := hostTransfer st.balances ciphertextAccount
                (Addr.wallet stealthSigner)
                ((alookup st.balances ciphertextAccount).getD 0) }
      else .error .constraintSeeds

/-- One submitted instruction, with all caller-chosen inputs. -/
inductive Instr where
  | init (sender stealthAddress : Pubkey) (ephemeralPubkey ciphertextPart1 : List Byte)
      (now : Int)
  | complete (sender : Pubkey) (ciphertextAccount : Addr) (ciphertextPart2 : List Byte)
      (offset : Nat)
  | transfer (sender stealthAddress : Pubkey) (ciphertextAccount : Addr) (lamports : Nat)
  | reclaim (stealthSigner : Pubkey) (ciphertextAccount : Addr)

/-- Dispatch an instruction to its handler. -/
def runInstr (st : Ledger) : Instr → Except ProgramError Ledger
  | .init sender stealthAddress ephemeralPubkey ciphertextPart1 now =>
      init_ciphertext st sender stealthAddress ephemeralPubkey ciphertextPart1 now
  | .complete sender ciphertextAccount ciphertextPart2 offset =>
      complete_ciphertext st sender ciphertextAccount ciphertextPart2 offset
  | .transfer sender stealthAddress ciphertextAccount lamports =>
      transfer_to_stealth st sender stealthAddress ciphertextAccount lamports
  | .reclaim stealthSigner ciphertextAccount =>
      reclaim_rent st stealthSigner ciphertextAccount

/-- Observable outcome of submitting one instruction as a host
transaction: the committed ledger, and the error if the transaction
was rejected.  A rejected transaction commits nothing — the input
ledger is returned unchanged, the host's per-request atomicity. -/
def applyInstr (st : Ledger) (i : Instr) : Ledger × Option ProgramError :=
  match runInstr st i with
  | .ok st' => (st', none)
  | .error e => (st, some e)

/-! Concrete sample states used by the witnesses and counterexamples. -/

/-- Sample 32-byte ephemeral key. -/
def sampleEphemeral : List Byte := List.replicate EPHEMERAL_PUBKEY_SIZE 7

/-- The sample one-time stealth (owner) address. -/
def ownerKey : Pubkey := 2

/-- The sample creating sender. -/
def senderKey : Pubkey := 1

/-- A third party, distinct from both sender and owner. -/
def otherKey : Pubkey := 99

/-- The PDA where the sample owner's record lives. -/
def recordAddr : Addr := Addr.pda ciphertextSeed ownerKey (canonicalBump ownerKey)

/-- Initial ledger: no records, the sender holds enough for the deposit. -/
def ledger0 : Ledger where
  records := []
  balances := [(Addr.wallet senderKey, rentCost)]

/-- Ledger after the sample sender's `init_ciphertext` for the sample owner. -/
def ledger1 : Ledger :=
  (init_ciphertext ledger0 senderKey ownerKey sampleEphemeral [5] 0).toOption.getD ledger0

/-- The record stored at `recordAddr` in `ledger1`. -/
def sampleAccount : CiphertextAccount :=
  (alookup ledger1.records recordAddr).getD defaultCiphertextAccount

/-- Ledger after a third party (neither the creating sender nor the owner)
calls `complete_ciphertext` on the sample record. -/
def ledgerAttacked : Ledger :=
  (complete_ciphertext ledger1 otherKey recordAddr [9] 0).toOption.getD ledger1

/-- The record stored at `recordAddr` in `ledgerAttacked`. -/
def sampleAccountAttacked : CiphertextAccount :=
  (alookup ledgerAttacked.records recordAddr).getD defaultCiphertextAccount

/-- Ledger after the sender writes chunk `[7, 8]` at offset 10 of the
sample record. -/
def ledger2 : Ledger :=
  (complete_ciphertext ledger1 senderKey recordAddr [7, 8] 10).toOption.getD ledger1

/-- Ledger after a fresh `init_ciphertext` with prefix bytes `[3, 4]`
and timestamp 11. -/
def ledgerC4 : Ledger :=
  (init_ciphertext ledger0 senderKey ownerKey sampleEphemeral [3, 4] 11).toOption.getD ledger0

/-- The record stored at `recordAddr` in `ledgerC4`. -/
def acctC4 : CiphertextAccount :=
  (alookup ledgerC4.records recordAddr).getD defaultCiphertextAccount

/-! Association-list lemmas. -/

theorem alookup_aput_self {α : Type} (l : List (Addr × α)) (a : Addr) (x : α) :
    alookup (aput l a x) a = some x := by
  simp [aput, alookup]

theorem alookup_aerase_self {α : Type} (l : List (Addr × α)) (a : Addr) :
    alookup (aerase l a) a = none := by
  induction l with
  | nil => rfl
  | cons p rest ih =>
      obtain ⟨b, x⟩ := p
      by_cases hb : b = a
      · simpa [aerase, hb] using ih
      · simpa [aerase, alookup, hb] using ih

theorem alookup_aerase_ne {α : Type} (l : List (Addr × α)) (a b : Addr) (h : b ≠ a) :
    alookup (aerase l a) b = alookup l b := by
  induction l with
  | nil => rfl
  | cons p rest ih =>
      obtain ⟨c, x⟩ := p
      by_cases hc : c = a
      · subst hc
        have hcb : c ≠ b := Ne.symm h
        simp [aerase, alookup, hcb, ih]
      · by_cases hcb : c = b
        · subst hcb
          simp [aerase, alookup, hc]
        · simp [aerase, alookup, hc, hcb, ih]

theorem alookup_aput_ne {α : Type} (l : List (Addr × α)) (a b : Addr) (x : α) (h : b ≠ a) :
    alookup (aput l a x) b = alookup l b := by
  simp [aput, alookup, Ne.symm h, alookup_aerase_ne l a b h]

theorem aerase_aerase {α : Type} (l : List (Addr × α)) (a : Addr) :
    aerase (aerase l a) a = aerase l a := by
  induction l with
  | nil => rfl
  | cons p rest ih =>
      obtain ⟨c, x⟩ := p
      by_cases hc : c = a <;> simp [aerase, hc, ih]

theorem aput_aput {α : Type} (l : List (Addr × α)) (a : Addr) (x y : α) :
    aput (aput l a x) a y = aput l a y := by
  simp [aput, aerase, aerase_aerase]

/-! Lemmas about `writeSlice`. -/

theorem length_writeSlice (buf chunk : List Byte) (offset : Nat)
    (h : offset + chunk.length ≤ buf.length) :
    (writeSlice buf offset chunk).length = buf.length := by
  simp [writeSlice]
  omega

theorem take_writeSlice (buf chunk : List Byte) (offset : Nat) (h : offset ≤ buf.length) :
    (writeSlice buf offset chunk).take offset = buf.take offset := by
  rw [writeSlice, List.append_assoc, List.take_append_eq_append_take, List.take_take]
  simp [Nat.min_eq_left h]

theorem drop_writeSlice (buf chunk : List Byte) (offset : Nat)
    (h : offset + chunk.length ≤ buf.length) :
    (writeSlice buf offset chunk).drop (offset + chunk.length) =
      buf.drop (offset + chunk.length) := by
  have h1 : (buf.take offset ++ chunk).length = offset + chunk.length := by
    simp
    omega
  have h2 : (buf.take offset ++ chunk).drop (offset + chunk.length) = [] :=
    List.drop_of_length_le (le_of_eq h1)
  rw [writeSlice, List.drop_append_eq_append_drop, h1, h2]
  simp

theorem writeSlice_writeSlice (buf chunk : List Byte) (offset : Nat)
    (h : offset + chunk.length ≤ buf.length) :
    writeSlice (writeSlice buf offset chunk) offset chunk = writeSlice buf offset chunk := by
  have h0 : offset ≤ buf.length := by omega
  rw [writeSlice, take_writeSlice buf chunk offset h0, drop_writeSlice buf chunk offset h]
  rfl

theorem writeSlice_nil (buf : List Byte) (offset : Nat) :
    writeSlice buf offset [] = buf := by
  simp [writeSlice]

theorem getD_writeSlice_lt (buf chunk : List Byte) (offset i : Nat)
    (hle : offset ≤ buf.length) (hi : i < offset) :
    (writeSlice buf offset chunk).getD i 0 = buf.getD i 0 := by
  have hlen : (buf.take offset).length = offset := by
    simp [Nat.min_eq_left hle]
  simp only [writeSlice, List.append_assoc, List.getD_eq_getElem?_getD]
  rw [List.getElem?_append_left (by rw [hlen]; exact hi), List.getElem?_take_of_lt hi]

theorem getD_writeSlice_ge (buf chunk : List Byte) (offset i : Nat)
    (h : offset + chunk.length ≤ buf.length) (hi : offset + chunk.length ≤ i) :
    (writeSlice buf offset chunk).getD i 0 = buf.getD i 0 := by
  have h1 : (buf.take offset ++ chunk).length = offset + chunk.length := by
    simp
    omega
  have harith : offset + chunk.length + (i - (offset + chunk.length)) = i := by omega
  simp only [writeSlice, List.getD_eq_getElem?_getD]
  rw [List.getElem?_append_right (by rw [h1]; exact hi), h1, List.getElem?_drop, harith]

theorem getD_writeSlice_mem (buf chunk : List Byte) (offset i : Nat)
    (hle : offset ≤ buf.length) (hi : i < chunk.length) :
    (writeSlice buf offset chunk).getD (offset + i) 0 = chunk.getD i 0 := by
  have hlen : (buf.take offset).length = offset := by
    simp [Nat.min_eq_left hle]
  have h1 : offset + i < (buf.take offset ++ chunk).length := by
    simp
    omega
  simp only [writeSlice, List.getD_eq_getElem?_getD]
  rw [List.getElem?_append_left h1, List.getElem?_append_right (by rw [hlen]; omega), hlen,
    Nat.add_sub_cancel_left]

theorem getD_replicate_zero (n i : Nat) :
    (List.replicate n (0 : Byte)).getD i 0 = 0 := by
  rcases Nat.lt_or_ge i n with h | h
  · simp [List.getElem?_replicate_of_lt h]
  · rw [List.getD_eq_default]
    simpa using h

/-! Success shape of `complete_ciphertext`. -/

theorem complete_ciphertext_ok_elim (st st' : Ledger) (s : Pubkey) (a : Addr)
    (c : List Byte) (o : Nat) (acct : CiphertextAccount)
    (hacct : alookup st.records a = some acct)
    (h : complete_ciphertext st s a c o = .ok st') :
    a = Addr.pda ciphertextSeed acct.stealth_pubkey acct.bump ∧
    o + c.length ≤ MLKEM_CIPHERTEXT_SIZE ∧
    st' = { st with
            records := aput st.records a
              ({ acct with mlkem_ciphertext := writeSlice acct.mlkem_ciphertext o c }) } := by
  simp only [complete_ciphertext, hacct] at h
  by_cases hseed : a = Addr.pda ciphertextSeed acct.stealth_pubkey acct.bump
  · rw [if_pos hseed] at h
    by_cases hlen : o + c.length ≤ MLKEM_CIPHERTEXT_SIZE
    · rw [if_pos hlen] at h
      injection h with h2
      exact ⟨hseed, hlen, h2.symm⟩
    · rw [if_neg hlen] at h
      exact Except.noConfusion h
  · rw [if_neg hseed] at h
    exact Except.noConfusion h

theorem complete_ciphertext_ok_intro (st : Ledger) (s : Pubkey) (a : Addr)
    (c : List Byte) (o : Nat) (acct : CiphertextAccount)
    (hacct : alookup st.records a = some acct)
    (hseed : a = Addr.pda ciphertextSeed acct.stealth_pubkey acct.bump)
    (hlen : o + c.length ≤ MLKEM_CIPHERTEXT_SIZE) :
    complete_ciphertext st s a c o = .ok { st with
      records := aput st.records a
        ({ acct with mlkem_ciphertext := writeSlice acct.mlkem_ciphertext o c }) } := by
  simp only [complete_ciphertext, hacct]
  rw [if_pos hseed, if_pos hlen]

theorem init_ciphertext_ok_intro (st : Ledger) (s A : Pubkey)
    (E P : List Byte) (now : Int)
    (hnone : alookup st.records (Addr.pda ciphertextSeed A (canonicalBump A)) = none)
    (hlen : P.length ≤ 512) :
    init_ciphertext st s A E P now = .ok
      { records := aput st.records (Addr.pda ciphertextSeed A (canonicalBump A))
          ({ defaultCiphertextAccount with
             stealth_pubkey := A
             ephemeral_pubkey := E
             mlkem_ciphertext := writeSlice defaultCiphertextAccount.mlkem_ciphertext 0 P
             created_at := now
             bump := canonicalBump A })
        balances := hostTransfer st.balances (Addr.wallet s)
          (Addr.pda ciphertextSeed A (canonicalBump A)) rentCost } := by
  simp only [init_ciphertext, hnone]
  rw [if_pos hlen]

/-! Claim theorems. -/

/-- Claim C3: for a record stored at its derived address,
`complete_ciphertext` with `offset + len(chunk) > 1088` fails with
`InvalidCiphertextLength`; with `offset + len(chunk) ≤ 1088` it
succeeds and overwrites exactly `ciphertext[offset : offset + len(chunk)]`
with the chunk bytes. -/
theorem complete_ciphertext_length_gate :
    (∀ (st : Ledger) (s : Pubkey) (a : Addr) (acct : CiphertextAccount)
        (c : List Byte) (o : Nat),
        alookup st.records a = some acct →
        a = Addr.pda ciphertextSeed acct.stealth_pubkey acct.bump →
        MLKEM_CIPHERTEXT_SIZE < o + c.length →
        complete_ciphertext st s a c o = .error .invalidCiphertextLength) ∧
    (∀ (st : Ledger) (s : Pubkey) (a : Addr) (acct : CiphertextAccount)
        (c : List Byte) (o : Nat),
        alookup st.records a = some acct →
        a = Addr.pda ciphertextSeed acct.stealth_pubkey acct.bump →
        acct.mlkem_ciphertext.length = MLKEM_CIPHERTEXT_SIZE →
        o + c.length ≤ MLKEM_CIPHERTEXT_SIZE →
        ∃ st', complete_ciphertext st s a c o = .ok st' ∧
          alookup st'.records a =
            some ({ acct with mlkem_ciphertext := writeSlice acct.mlkem_ciphertext o c }) ∧
          (∀ i, i < c.length →
            (writeSlice acct.mlkem_ciphertext o c).getD (o + i) 0 = c.getD i 0)) := by
  constructor
  · intro st s a acct c o hacct hseed hlen
    simp only [complete_ciphertext, hacct]
    rw [if_pos hseed, if_neg (Nat.not_le.mpr hlen)]
  · intro st s a acct c o hacct hseed hwf hlen
    refine ⟨_, complete_ciphertext_ok_intro st s a c o acct hacct hseed hlen, ?_, ?_⟩
    · exact alookup_aput_self _ _ _
    · intro i hi
      exact getD_writeSlice_mem _ _ _ _ (by rw [hwf]; omega) hi

/-- Claim C3 witness: on the sample ledger, offset 600 with a 500-byte
chunk fails with `InvalidCiphertextLength`, and offset 512 with a
576-byte chunk succeeds. -/
theorem complete_ciphertext_length_gate_witness :
    alookup ledger1.records recordAddr = some sampleAccount ∧
    MLKEM_CIPHERTEXT_SIZE < 600 + (List.replicate 500 (1 : Byte)).length ∧
    complete_ciphertext ledger1 senderKey recordAddr (List.replicate 500 1) 600 =
      .error .invalidCiphertextLength ∧
    (complete_ciphertext ledger1 senderKey recordAddr
      (List.replicate 576 2) 512).toOption.isSome = true := by
  refine ⟨rfl, by decide, complete_ciphertext_length_gate.1 ledger1 senderKey recordAddr
    sampleAccount (List.replicate 500 1) 600 rfl rfl (by decide), ?_⟩
  obtain ⟨st', hrun, -, -⟩ := complete_ciphertext_length_gate.2 ledger1 senderKey recordAddr
    sampleAccount (List.replicate 576 2) 512 rfl rfl (by decide) (by decide)
  rw [hrun]
  rfl

/-- Claim C5: when no record exists yet at the derived address,
`init_ciphertext` with a 512-byte ciphertext part succeeds, and with a
part of 513 or more bytes fails with `InvalidCiphertextLength`. -/
theorem init_ciphertext_512_boundary :
    (∀ (st : Ledger) (s A : Pubkey) (E P : List Byte) (now : Int),
        alookup st.records (Addr.pda ciphertextSeed A (canonicalBump A)) = none →
        P.length = 512 →
        ∃ st', init_ciphertext st s A E P now = .ok st') ∧
    (∀ (st : Ledger) (s A : Pubkey) (E P : List Byte) (now : Int),
        alookup st.records (Addr.pda ciphertextSeed A (canonicalBump A)) = none →
        513 ≤ P.length →
        init_ciphertext st s A E P now = .error .invalidCiphertextLength) := by
  constructor
  · intro st s A E P now hnone hP
    exact ⟨_, init_ciphertext_ok_intro st s A E P now hnone (by omega)⟩
  · intro st s A E P now hnone hP
    simp only [init_ciphertext, hnone]
    rw [if_neg (by omega)]

/-- Claim C5 witness: a 512-byte part succeeds on the fresh ledger and
a 513-byte part fails with `InvalidCiphertextLength`. -/
theorem init_ciphertext_512_boundary_witness :
    alookup ledger0.records (Addr.pda ciphertextSeed ownerKey (canonicalBump ownerKey)) =
      none ∧
    (List.replicate 512 (1 : Byte)).length = 512 ∧
    (init_ciphertext ledger0 senderKey ownerKey sampleEphemeral
      (List.replicate 512 1) 0).toOption.isSome = true ∧
    513 ≤ (List.replicate 513 (1 : Byte)).length ∧
    init_ciphertext ledger0 senderKey ownerKey sampleEphemeral (List.replicate 513 1) 0 =
      .error .invalidCiphertextLength := by
  refine ⟨rfl, by decide, ?_, by decide,
    init_ciphertext_512_boundary.2 ledger0 senderKey ownerKey sampleEphemeral
      (List.replicate 513 1) 0 rfl (by decide)⟩
  obtain ⟨st', hrun⟩ := init_ciphertext_512_boundary.1 ledger0 senderKey ownerKey
    sampleEphemeral (List.replicate 512 1) 0 rfl (by decide)
  rw [hrun]
  rfl

/-- Claim C10: `complete_ciphertext` with an empty chunk succeeds for
any offset up to and including 1088 and leaves the record unchanged,
and it returns `InvalidCiphertextLength` only when
`offset + len(chunk)` strictly exceeds 1088. -/
theorem complete_ciphertext_empty_chunk :
    (∀ (st : Ledger) (s : Pubkey) (a : Addr) (acct : CiphertextAccount) (o : Nat),
        alookup st.records a = some acct →
        a = Addr.pda ciphertextSeed acct.stealth_pubkey acct.bump →
        acct.mlkem_ciphertext.length = MLKEM_CIPHERTEXT_SIZE →
        o ≤ MLKEM_CIPHERTEXT_SIZE →
        ∃ st', complete_ciphertext st s a ([] : List Byte) o = .ok st' ∧
          alookup st'.records a = some acct) ∧
    (∀ (st : Ledger) (s : Pubkey) (a : Addr) (c : List Byte) (o : Nat),
        complete_ciphertext st s a c o = .error .invalidCiphertextLength →
        MLKEM_CIPHERTEXT_SIZE < o + c.length) := by
  constructor
  · intro st s a acct o hacct hseed hwf ho
    have hlen : o + ([] : List Byte).length ≤ MLKEM_CIPHERTEXT_SIZE := by
      simpa using ho
    refine ⟨_, complete_ciphertext_ok_intro st s a [] o acct hacct hseed hlen, ?_⟩
    rw [alookup_aput_self, writeSlice_nil]
  · intro st s a c o h
    cases halk : alookup st.records a with
    | none =>
        simp only [complete_ciphertext, halk] at h
        exact absurd h (by simp)
    | some acct =>
        simp only [complete_ciphertext, halk] at h
        by_cases hseed : a = Addr.pda ciphertextSeed acct.stealth_pubkey acct.bump
        · rw [if_pos hseed] at h
          by_cases hlen : o + c.length ≤ MLKEM_CIPHERTEXT_SIZE
          · rw [if_pos hlen] at h
            exact Except.noConfusion h
          · exact Nat.not_le.mp hlen
        · rw [if_neg hseed] at h
          exact absurd h (by simp)

/-- Claim C10 witness: an empty chunk at offset 1088 succeeds and
leaves the sample record unchanged; a call that does fail with
`InvalidCiphertextLength` (600-byte chunk at offset 600) indeed has
`offset + len > 1088`. -/
theorem complete_ciphertext_empty_chunk_witness :
    alookup ledger1.records recordAddr = some sampleAccount ∧
    sampleAccount.mlkem_ciphertext.length = MLKEM_CIPHERTEXT_SIZE ∧
    (1088 : Nat) ≤ MLKEM_CIPHERTEXT_SIZE ∧
    (complete_ciphertext ledger1 senderKey recordAddr [] 1088).toOption.isSome = true ∧
    alookup ((complete_ciphertext ledger1 senderKey recordAddr [] 1088).toOption.getD
      ledger0).records recordAddr = some sampleAccount ∧
    MLKEM_CIPHERTEXT_SIZE < 600 + (List.replicate 600 (1 : Byte)).length := by
  refine ⟨rfl, by decide, by decide, ?_, ?_, ?_⟩
  · obtain ⟨st', hrun, -⟩ := complete_ciphertext_empty_chunk.1 ledger1 senderKey recordAddr
      sampleAccount 1088 rfl rfl (by decide) (by decide)
    rw [hrun]
    rfl
  · obtain ⟨st', hrun, hlook⟩ := complete_ciphertext_empty_chunk.1 ledger1 senderKey
      recordAddr sampleAccount 1088 rfl rfl (by decide) (by decide)
    rw [hrun]
    exact hlook
  · exact complete_ciphertext_empty_chunk.2 ledger1 senderKey recordAddr
      (List.replicate 600 1) 600 rfl

/-- Claim C1 counterexample: a signer (key 99) that is neither the
creating sender (key 1) nor the owner (key 2) successfully mutates the
ciphertext of an existing record through `complete_ciphertext`, so a
party other than the legitimate sender can write the ciphertext. -/
theorem complete_ciphertext_third_party_write :
    init_ciphertext ledger0 senderKey ownerKey sampleEphemeral [5] 0 = .ok ledger1 ∧
    complete_ciphertext ledger1 otherKey recordAddr [9] 0 = .ok ledgerAttacked ∧
    otherKey ≠ senderKey ∧
    otherKey ≠ ownerKey ∧
    sampleAccountAttacked.mlkem_ciphertext.getD 0 0 = 9 ∧
    sampleAccount.mlkem_ciphertext.getD 0 0 = 5 :=
  ⟨rfl, rfl, by decide, by decide, by decide, by decide⟩

/-- Claim C1 (amended): `complete_ciphertext` does not depend on which
signer submits it — any fee-paying signer, not only the creating
sender, can write the ciphertext of an existing record — but no call
through `complete_ciphertext` can alter the record's ephemeral public
value. -/
theorem complete_ciphertext_signer_agnostic
    (st : Ledger) (s t : Pubkey) (a : Addr) (c : List Byte) (o : Nat) :
    complete_ciphertext st s a c o = complete_ciphertext st t a c o ∧
    (∀ (st' : Ledger) (acct acct' : CiphertextAccount),
      alookup st.records a = some acct →
      complete_ciphertext st s a c o = .ok st' →
      alookup st'.records a = some acct' →
      acct'.ephemeral_pubkey = acct.ephemeral_pubkey) := by
  refine ⟨rfl, ?_⟩
  intro st' acct acct' hacct hrun hacct'
  obtain ⟨hseed, hlen, hst⟩ := complete_ciphertext_ok_elim st st' s a c o acct hacct hrun
  subst hst
  simp only [alookup_aput_self, Option.some.injEq] at hacct'
  subst hacct'
  rfl

/-- Claim C1 witness: applied on the sample ledger — the creating
sender and a third party obtain identical results, and the attacked
record keeps its ephemeral key. -/
theorem complete_ciphertext_signer_agnostic_witness :
    complete_ciphertext ledger1 senderKey recordAddr [9] 0 =
      complete_ciphertext ledger1 otherKey recordAddr [9] 0 ∧
    alookup ledger1.records recordAddr = some sampleAccount ∧
    sampleAccountAttacked.ephemeral_pubkey = sampleAccount.ephemeral_pubkey := by
  refine ⟨(complete_ciphertext_signer_agnostic ledger1 senderKey otherKey recordAddr
    [9] 0).1, rfl, ?_⟩
  exact (complete_ciphertext_signer_agnostic ledger1 otherKey senderKey recordAddr
    [9] 0).2 ledgerAttacked sampleAccount sampleAccountAttacked rfl rfl rfl

/-- Claim C2: `reclaim_rent` by a signer whose own key does not
re-derive the record's stored address fails with the derivation
mismatch (seeds) error; `reclaim_rent` by the correct owner removes
the record from storage and moves the account's entire lamport balance
— the storage deposit — to the caller. -/
theorem reclaim_rent_authorization :
    (∀ (st : Ledger) (caller : Pubkey) (a : Addr) (acct : CiphertextAccount),
        alookup st.records a = some acct →
        Addr.pda ciphertextSeed caller acct.bump ≠ a →
        reclaim_rent st caller a = .error .constraintSeeds) ∧
    (∀ (st : Ledger) (caller : Pubkey) (a : Addr) (acct : CiphertextAccount),
        alookup st.records a = some acct →
        Addr.pda ciphertextSeed caller acct.bump = a →
        ∃ st', reclaim_rent st caller a = .ok st' ∧
          alookup st'.records a = none ∧
          getBalance st' (Addr.wallet caller) =
            getBalance st (Addr.wallet caller) + getBalance st a) := by
  constructor
  · intro st caller a acct hacct hne
    simp only [reclaim_rent, hacct]
    rw [if_neg (fun hh => hne hh.symm)]
  · intro st caller a acct hacct heq
    refine ⟨{ records := aerase st.records a,
              balances := hostTransfer st.balances a (Addr.wallet caller)
                ((alookup st.balances a).getD 0) }, ?_, ?_, ?_⟩
    · simp only [reclaim_rent, hacct]
      rw [if_pos heq.symm]
    · exact alookup_aerase_self _ _
    · have hwne : (Addr.wallet caller : Addr) ≠ a := by
        rw [← heq]
        intro hh
        exact Addr.noConfusion hh
      simp only [getBalance, hostTransfer]
      rw [alookup_aput_self, alookup_aput_ne _ _ _ _ hwne]
      rfl

/-- Claim C2 witness: on the sample ledger, a third party's reclaim
fails with the seeds error; the owner's reclaim removes the record and
credits the owner with the account's whole balance. -/
theorem reclaim_rent_authorization_witness :
    alookup ledger1.records recordAddr = some sampleAccount ∧
    Addr.pda ciphertextSeed otherKey sampleAccount.bump ≠ recordAddr ∧
    reclaim_rent ledger1 otherKey recordAddr = .error .constraintSeeds ∧
    Addr.pda ciphertextSeed ownerKey sampleAccount.bump = recordAddr ∧
    alookup ((reclaim_rent ledger1 ownerKey recordAddr).toOption.getD ledger0).records
      recordAddr = none ∧
    getBalance ((reclaim_rent ledger1 ownerKey recordAddr).toOption.getD ledger0)
      (Addr.wallet ownerKey) =
      getBalance ledger1 (Addr.wallet ownerKey) + getBalance ledger1 recordAddr := by
  refine ⟨rfl, by decide, reclaim_rent_authorization.1 ledger1 otherKey recordAddr
    sampleAccount rfl (by decide), by decide, ?_, ?_⟩
  · obtain ⟨st', hrun, hnone, hbal⟩ := reclaim_rent_authorization.2 ledger1 ownerKey
      recordAddr sampleAccount rfl (by decide)
    rw [hrun]
    exact hnone
  · obtain ⟨st', hrun, hnone, hbal⟩ := reclaim_rent_authorization.2 ledger1 ownerKey
      recordAddr sampleAccount rfl (by decide)
    rw [hrun]
    exact hbal

/-- Claim C4: after a successful `init_ciphertext` with owner address
`A`, ephemeral value `E` and ciphertext part `P` of at most 512 bytes,
the record at the derived address holds `A`, `E`, the bytes of `P` at
offsets below `len P`, zero at every offset from `len P` to 1087, the
creation timestamp and the stored bump. -/
theorem init_ciphertext_success_postconditions
    (st : Ledger) (s A : Pubkey) (E P : List Byte) (now : Int)
    (hnone : alookup st.records (Addr.pda ciphertextSeed A (canonicalBump A)) = none)
    (hlen : P.length ≤ 512) :
    ∃ st' acct, init_ciphertext st s A E P now = .ok st' ∧
      alookup st'.records (Addr.pda ciphertextSeed A (canonicalBump A)) = some acct ∧
      acct.stealth_pubkey = A ∧
      acct.ephemeral_pubkey = E ∧
      (∀ i, i < P.length → acct.mlkem_ciphertext.getD i 0 = P.getD i 0) ∧
      (∀ i, P.length ≤ i → i < MLKEM_CIPHERTEXT_SIZE →
        acct.mlkem_ciphertext.getD i 0 = 0) ∧
      acct.created_at = now ∧
      acct.bump = canonicalBump A := by
  refine ⟨_, _, init_ciphertext_ok_intro st s A E P now hnone hlen,
    alookup_aput_self _ _ _, rfl, rfl, ?_, ?_, rfl, rfl⟩
  · intro i hi
    have h := getD_writeSlice_mem defaultCiphertextAccount.mlkem_ciphertext P 0 i
      (Nat.zero_le _) hi
    simpa using h
  · intro i hi hM
    have hbound : 0 + P.length ≤ defaultCiphertextAccount.mlkem_ciphertext.length := by
      simp [defaultCiphertextAccount, MLKEM_CIPHERTEXT_SIZE]
      omega
    have h := getD_writeSlice_ge defaultCiphertextAccount.mlkem_ciphertext P 0 i hbound
      (by omega)
    show (writeSlice defaultCiphertextAccount.mlkem_ciphertext 0 P).getD i 0 = 0
    rw [h]
    exact getD_replicate_zero MLKEM_CIPHERTEXT_SIZE i

/-- Claim C4 witness: a fresh `init_ciphertext` with part `[3, 4]` and
timestamp 11 yields a record with the right owner, ephemeral key,
bytes 3 and 4 at offsets 0 and 1, zero at offset 900, timestamp 11 and
the canonical bump. -/
theorem init_ciphertext_success_postconditions_witness :
    alookup ledger0.records (Addr.pda ciphertextSeed ownerKey (canonicalBump ownerKey)) =
      none ∧
    ([3, 4] : List Byte).length ≤ 512 ∧
    acctC4.stealth_pubkey = ownerKey ∧
    acctC4.ephemeral_pubkey = sampleEphemeral ∧
    acctC4.mlkem_ciphertext.getD 0 0 = 3 ∧
    acctC4.mlkem_ciphertext.getD 1 0 = 4 ∧
    acctC4.mlkem_ciphertext.getD 900 0 = 0 ∧
    acctC4.created_at = 11 ∧
    acctC4.bump = canonicalBump ownerKey := by
  obtain ⟨st', acct, hrun, hlook, hsp, hep, hmem, hzero, hca, hb⟩ :=
    init_ciphertext_success_postconditions ledger0 senderKey ownerKey sampleEphemeral
      [3, 4] 11 rfl (by decide)
  have hst : ledgerC4 = st' := by
    show (init_ciphertext ledger0 senderKey ownerKey sampleEphemeral [3, 4] 11).toOption.getD
      ledger0 = st'
    rw [hrun]
    rfl
  have hacct : acctC4 = acct := by
    show (alookup ledgerC4.records recordAddr).getD defaultCiphertextAccount = acct
    rw [hst, show alookup st'.records recordAddr = some acct from hlook]
    rfl
  refine ⟨rfl, by decide, ?_, ?_, ?_, ?_, ?_, ?_, ?_⟩
  · rw [hacct]; exact hsp
  · rw [hacct]; exact hep
  · rw [hacct, hmem 0 (by decide)]; decide
  · rw [hacct, hmem 1 (by decide)]; decide
  · rw [hacct]; exact hzero 900 (by decide) (by decide)
  · rw [hacct]; exact hca
  · rw [hacct]; exact hb

/-- Claim C6: `complete_ciphertext` is idempotent — after a first
successful call with a given chunk and offset, repeating the identical
call succeeds and returns exactly the state the first call produced. -/
theorem complete_ciphertext_idempotent
    (st st' : Ledger) (s : Pubkey) (a : Addr) (c : List Byte) (o : Nat)
    (acct : CiphertextAccount)
    (hacct : alookup st.records a = some acct)
    (hwf : acct.mlkem_ciphertext.length = MLKEM_CIPHERTEXT_SIZE)
    (h1 : complete_ciphertext st s a c o = .ok st') :
    complete_ciphertext st' s a c o = .ok st' := by
  obtain ⟨hseed, hlen, hst⟩ := complete_ciphertext_ok_elim st st' s a c o acct hacct h1
  have hbound : o + c.length ≤ acct.mlkem_ciphertext.length := by
    rw [hwf]
    exact hlen
  subst hst
  have h2 := complete_ciphertext_ok_intro
    { st with
      records := aput st.records a
          ({ acct with mlkem_ciphertext := writeSlice acct.mlkem_ciphertext o c }) }
    s a c o
    ({ acct with mlkem_ciphertext := writeSlice acct.mlkem_ciphertext o c })
    (alookup_aput_self st.records a _) hseed hlen
  rw [h2]
  simp only [aput_aput, writeSlice_writeSlice _ _ _ hbound]

/-- Claim C6 witness: writing chunk `[7, 8]` at offset 10 twice yields
the same ledger as writing it once. -/
theorem complete_ciphertext_idempotent_witness :
    alookup ledger1.records recordAddr = some sampleAccount ∧
    sampleAccount.mlkem_ciphertext.length = MLKEM_CIPHERTEXT_SIZE ∧
    complete_ciphertext ledger1 senderKey recordAddr [7, 8] 10 = .ok ledger2 ∧
    complete_ciphertext ledger2 senderKey recordAddr [7, 8] 10 = .ok ledger2 :=
  ⟨rfl, by decide, rfl, complete_ciphertext_idempotent ledger1 ledger2 senderKey
    recordAddr [7, 8] 10 sampleAccount rfl (by decide) rfl⟩

/-- Claim C7: with a record at the derived destination address,
`transfer_to_stealth` with amount 0 fails with `ZeroTransferAmount`;
with amount at least 1 it succeeds, delegates the lamport movement to
the host transfer primitive, and leaves the stored records untouched. -/
theorem transfer_to_stealth_gate :
    (∀ (st : Ledger) (s A : Pubkey) (a : Addr) (acct : CiphertextAccount),
        alookup st.records a = some acct →
        a = Addr.pda ciphertextSeed A acct.bump →
        transfer_to_stealth st s A a 0 = .error .zeroTransferAmount) ∧
    (∀ (st : Ledger) (s A : Pubkey) (a : Addr) (acct : CiphertextAccount) (n : Nat),
        alookup st.records a = some acct →
        a = Addr.pda ciphertextSeed A acct.bump →
        1 ≤ n →
        transfer_to_stealth st s A a n = .ok { st with
          balances := hostTransfer st.balances (Addr.wallet s) (Addr.wallet A)
            (n : Int) }) := by
  constructor
  · intro st s A a acct hacct hseed
    simp only [transfer_to_stealth, hacct]
    rw [if_pos hseed, if_neg (lt_irrefl 0)]
  · intro st s A a acct n hacct hseed hn
    simp only [transfer_to_stealth, hacct]
    rw [if_pos hseed, if_pos (Nat.lt_of_lt_of_le Nat.zero_lt_one hn)]

/-- Claim C7 witness: on the sample ledger, amount 0 fails with
`ZeroTransferAmount` and amount 1000 succeeds via the host transfer,
leaving the records component untouched. -/
theorem transfer_to_stealth_gate_witness :
    alookup ledger1.records recordAddr = some sampleAccount ∧
    recordAddr = Addr.pda ciphertextSeed ownerKey sampleAccount.bump ∧
    transfer_to_stealth ledger1 senderKey ownerKey recordAddr 0 =
      .error .zeroTransferAmount ∧
    (1 : Nat) ≤ 1000 ∧
    transfer_to_stealth ledger1 senderKey ownerKey recordAddr 1000 = .ok { ledger1 with
      balances := hostTransfer ledger1.balances (Addr.wallet senderKey)
        (Addr.wallet ownerKey) (1000 : Int) } :=
  ⟨rfl, by decide,
    transfer_to_stealth_gate.1 ledger1 senderKey ownerKey recordAddr sampleAccount rfl
      (by decide),
    by decide,
    transfer_to_stealth_gate.2 ledger1 senderKey ownerKey recordAddr sampleAccount 1000
      rfl (by decide) (by decide)⟩

/-- Claim C8: every instruction is atomic per request — whenever a
submitted instruction is rejected with an error, the committed ledger
is exactly the input ledger; no partial effect is committed. -/
theorem applyInstr_atomic_on_error
    (st st' : Ledger) (i : Instr) (e : ProgramError)
    (h : applyInstr st i = (st', some e)) : st' = st := by
  cases hr : runInstr st i with
  | ok s2 =>
      simp only [applyInstr, hr] at h
      exact Option.noConfusion (congrArg Prod.snd h)
  | error e2 =>
      simp only [applyInstr, hr, Prod.mk.injEq, Option.some.injEq] at h
      exact h.1.symm

/-- Claim C8 witness: a rejected zero-amount transfer commits nothing. -/
theorem applyInstr_atomic_on_error_witness :
    applyInstr ledger1 (Instr.transfer senderKey ownerKey recordAddr 0) =
      (ledger1, some ProgramError.zeroTransferAmount) ∧
    (applyInstr ledger1 (Instr.transfer senderKey ownerKey recordAddr 0)).1 = ledger1 := by
  refine ⟨rfl, ?_⟩
  exact applyInstr_atomic_on_error ledger1
    (applyInstr ledger1 (Instr.transfer senderKey ownerKey recordAddr 0)).1
    (Instr.transfer senderKey ownerKey recordAddr 0) ProgramError.zeroTransferAmount rfl

/-- Claim C9: a successful `complete_ciphertext` changes nothing in
the record except the ciphertext bytes in the written range — the
owner key, ephemeral public value, creation timestamp, bump, and every
ciphertext byte outside `[offset, offset + len(chunk))` keep their
prior values. -/
theorem complete_ciphertext_frame
    (st st' : Ledger) (s : Pubkey) (a : Addr) (c : List Byte) (o : Nat)
    (acct acct' : CiphertextAccount)
    (hacct : alookup st.records a = some acct)
    (hwf : acct.mlkem_ciphertext.length = MLKEM_CIPHERTEXT_SIZE)
    (hrun : complete_ciphertext st s a c o = .ok st')
    (hacct' : alookup st'.records a = some acct') :
    acct'.stealth_pubkey = acct.stealth_pubkey ∧
    acct'.ephemeral_pubkey = acct.ephemeral_pubkey ∧
    acct'.created_at = acct.created_at ∧
    acct'.bump = acct.bump ∧
    (∀ i, i < o ∨ o + c.length ≤ i →
      acct'.mlkem_ciphertext.getD i 0 = acct.mlkem_ciphertext.getD i 0) := by
  obtain ⟨hseed, hlen, hst⟩ := complete_ciphertext_ok_elim st st' s a c o acct hacct hrun
  subst hst
  simp only [alookup_aput_self, Option.some.injEq] at hacct'
  subst hacct'
  refine ⟨rfl, rfl, rfl, rfl, ?_⟩
  intro i hi
  rcases hi with h | h
  · exact getD_writeSlice_lt _ _ _ _ (by rw [hwf]; omega) h
  · exact getD_writeSlice_ge _ _ _ _ (by rw [hwf]; exact hlen) h

/-- Claim C9 witness: after the sample third-party write of `[9]` at
offset 0, every non-ciphertext field and the ciphertext byte at offset
5 are unchanged. -/
theorem complete_ciphertext_frame_witness :
    alookup ledger1.records recordAddr = some sampleAccount ∧
    sampleAccount.mlkem_ciphertext.length = MLKEM_CIPHERTEXT_SIZE ∧
    complete_ciphertext ledger1 otherKey recordAddr [9] 0 = .ok ledgerAttacked ∧
    alookup ledgerAttacked.records recordAddr = some sampleAccountAttacked ∧
    sampleAccountAttacked.stealth_pubkey = sampleAccount.stealth_pubkey ∧
    sampleAccountAttacked.ephemeral_pubkey = sampleAccount.ephemeral_pubkey ∧
    sampleAccountAttacked.created_at = sampleAccount.created_at ∧
    sampleAccountAttacked.bump = sampleAccount.bump ∧
    sampleAccountAttacked.mlkem_ciphertext.getD 5 0 =
      sampleAccount.mlkem_ciphertext.getD 5 0 := by
  obtain ⟨h1, h2, h3, h4, h5⟩ := complete_ciphertext_frame ledger1 ledgerAttacked otherKey
    recordAddr [9] 0 sampleAccount sampleAccountAttacked rfl (by decide) rfl rfl
  exact ⟨rfl, by decide, rfl, rfl, h1, h2, h3, h4, h5 5 (Or.inr (by decide))⟩

end StealthPq
